import Mathlib

/-!
Verification development for the `pdf-reader` frontend
(`src/frontend/src/app.ts`, class `PDFReaderApp`, the feature-complete
variant).  The TypeScript code is shallowly embedded: the mutable fields of
the class become a Lean structure `AppState`, DOM/speech side effects become
a trace of `Event`s, and the callback-driven playback loop becomes explicit
recursive functions.  JavaScript numbers used as indices are embedded as
`Nat`; the speech rate (a JS float used only via assignment, `Math.min` and
display) is embedded as `ℚ`.
-/

namespace PDFReader

/-- Embeds the `WordData` TS interface: a word together with its half-open
character offsets into the text variant it was extracted from. -/
structure WordData where
  word : String
  start_pos : Nat
  end_pos : Nat
deriving DecidableEq, Repr

/-- Embeds the `PageData` TS interface. The page image (a base64 string in
the code) is kept abstract as an optional string. -/
structure PageData where
  page_number : Nat
  original_text : String
  processed_text : String
  words : List WordData
  image : Option String
  has_header_footer_removal : Bool
deriving DecidableEq, Repr

/-- Embeds the `PDFData` TS interface: the processed document returned by
the upload endpoint. -/
structure PDFData where
  success : Bool
  total_pages : Nat
  pages : List PageData
  header_patterns : List String
  footer_patterns : List String
deriving DecidableEq, Repr

/-- Embeds a `SpeechSynthesisUtterance`: the text plus the rate, pitch and
volume assigned at dispatch time in `startReading`. -/
structure Utterance where
  text : String
  rate : ℚ
  pitch : ℚ
  volume : ℚ
deriving DecidableEq, Repr

/-- The highlight classes applied to word elements: the sets of
`(pageIndex, wordIndex)` keys currently carrying the CSS classes
`current-word`, `spoken-word` and `clicked-start`. -/
structure HighlightState where
  currentWord : List (Nat × Nat)
  spokenWord : List (Nat × Nat)
  clickedStart : List (Nat × Nat)
deriving DecidableEq, Repr

/-- Embeds the mutable fields of class `PDFReaderApp` plus the state of the
external speech capability.  `wordElements` is the domain of the
`Map<string, HTMLElement>` word index, as `(pageIndex, wordIndex)` keys;
`status` is the text of the `statusText` DOM element; `ttsSpeaking` and
`ttsPaused` model `speechSynthesis.speaking` / `.paused`. -/
structure AppState where
  currentPDF : Option PDFData
  currentUtterance : Option Utterance
  isPlaying : Bool
  isPaused : Bool
  currentPageIndex : Nat
  currentWordIndex : Nat
  speechRate : ℚ
  wordElements : List (Nat × Nat)
  keyboardListenerActive : Bool
  isImageView : Bool
  skipHeaderFooter : Bool
  currentWordsData : List (List WordData)
  highlight : HighlightState
  ttsSpeaking : Bool
  ttsPaused : Bool
  status : String
deriving DecidableEq, Repr

/-- Observable effects of the handlers: a dispatched single-word utterance
(`speechSynthesis.speak`) and a status-channel message (`updateStatus`). -/
inductive Event where
  | speak (word : String) (rate : ℚ)
  | status (message : String)
deriving DecidableEq, Repr

/-- The words of a trace: the text of each dispatched utterance in order. -/
def speaks (es : List Event) : List String :=
  es.filterMap fun e =>
    match e with
    | Event.speak w _ => some w
    | Event.status _ => none

/-! ## Tokenizer (`extractWordsFromText`) -/

/-- Character class of the regex `\w` used by `extractWordsFromText`
(`/\b\w+\b/g` without the `u` flag): ASCII alphanumerics and underscore. -/
def isWordChar (c : Char) : Bool :=
  c.isAlphanum || c == '_'

/-- Scanning loop of `extractWordsFromText`: `/\b\w+\b/g` applied with
`exec` in a loop yields exactly the maximal runs of `\w` characters, each
with `start_pos = match.index` and `end_pos = match.index + match[0].length`.
`i` is the absolute offset of the first character of `cs` in the text. -/
def extractWordsAux (cs : List Char) (i : Nat) : List WordData :=
  match cs with
  | [] => []
  | c :: rest =>
    if h : isWordChar c then
      let run := (c :: rest).takeWhile isWordChar
      { word := ⟨run⟩, start_pos := i, end_pos := i + run.length } ::
        extractWordsAux ((c :: rest).dropWhile isWordChar) (i + run.length)
    else
      extractWordsAux rest (i + 1)
termination_by cs.length
decreasing_by
  · have hsplit := congrArg List.length
      (List.takeWhile_append_dropWhile (p := isWordChar) (l := c :: rest))
    rw [List.length_append] at hsplit
    have hpos : 0 < ((c :: rest).takeWhile isWordChar).length := by
      rw [List.takeWhile_cons_of_pos h]
      simp
    simp only [List.length_cons] at hsplit ⊢
    omega
  · simp

/-- Embeds `extractWordsFromText(text)`. -/
def extractWordsFromText (text : String) : List WordData :=
  extractWordsAux text.data 0

/-! ## Text reassembly (`createWordElements`) -/

/-- Embeds `text.slice(a, b)` for natural indices. -/
def sliceChars (text : List Char) (a b : Nat) : List Char :=
  (text.take b).drop a

/-- The text content emitted by `createWordElements`: for each word, the
inter-word text node `text.slice(lastIndex, start_pos)` (emitted only when
`start_pos > lastIndex`) followed by the word element's own text
`wordData.word`; after the loop, the remaining text node `text.slice(lastIndex)`
(emitted only when `lastIndex < text.length`). -/
def reassembleChars (text : List Char) (lastIndex : Nat) : List WordData → List Char
  | [] =>
    if lastIndex < text.length then text.drop lastIndex else []
  | w :: ws =>
    (if lastIndex < w.start_pos then sliceChars text lastIndex w.start_pos else []) ++
      w.word.data ++ reassembleChars text w.end_pos ws

/-! ## Playback engine state helpers -/

/-- Embeds `this.currentPDF.pages.length` with the missing-document case of
the guard `!this.currentPDF || ...` folded in as zero pages. -/
def pageCount (s : AppState) : Nat :=
  match s.currentPDF with
  | none => 0
  | some pdf => pdf.pages.length

/-- Embeds `this.currentWordsData[pageIndex] || []`. -/
def wordsToUse (s : AppState) (pageIndex : Nat) : List WordData :=
  s.currentWordsData.getD pageIndex []

/-- Embeds the JS array indexing `words[i]`, which yields `undefined` out of
range. -/
def wordLookup (words : List WordData) (i : Nat) : Option WordData :=
  words[i]?

/-- Embeds `updateStatus(message)`: writes the `statusText` element and is
recorded as a status event. -/
def updateStatus (s : AppState) (message : String) : AppState × List Event :=
  ({ s with status := message }, [Event.status message])

/-- Embeds `clearHighlighting()`: removes `current-word`, `spoken-word` and
`clicked-start` from every word element. -/
def clearHighlighting (s : AppState) : AppState :=
  { s with highlight := { currentWord := [], spokenWord := [], clickedStart := [] } }

/-- Embeds `findWordElement(pageIndex, wordIndex)`: whether the word index
holds an element for that key. -/
def findWordElement (s : AppState) (pageIndex wordIndex : Nat) : Bool :=
  (pageIndex, wordIndex) ∈ s.wordElements

/-- Highlight effect of `highlightCurrentWord()`: remove `current-word` and
`clicked-start` from all elements, then add `current-word` to the element at
the cursor if the word index has one (`scrollIntoView` has no model). -/
def highlightCurrentWordH (s : AppState) : HighlightState :=
  if findWordElement s s.currentPageIndex s.currentWordIndex then
    { s.highlight with
        currentWord := [(s.currentPageIndex, s.currentWordIndex)], clickedStart := [] }
  else
    { s.highlight with currentWord := [], clickedStart := [] }

/-- Embeds `highlightCurrentWord()`. -/
def highlightCurrentWord (s : AppState) : AppState :=
  { s with highlight := highlightCurrentWordH s }

/-- Highlight effect of `markWordAsSpoken()`: if the word index has an
element at the cursor, remove its `current-word` class and add
`spoken-word`. -/
def markWordAsSpokenH (s : AppState) : HighlightState :=
  if findWordElement s s.currentPageIndex s.currentWordIndex then
    { s.highlight with
        currentWord := s.highlight.currentWord.erase (s.currentPageIndex, s.currentWordIndex),
        spokenWord :=
          if (s.currentPageIndex, s.currentWordIndex) ∈ s.highlight.spokenWord then
            s.highlight.spokenWord
          else (s.currentPageIndex, s.currentWordIndex) :: s.highlight.spokenWord }
  else
    s.highlight

/-- Embeds `markWordAsSpoken()`. -/
def markWordAsSpoken (s : AppState) : AppState :=
  { s with highlight := markWordAsSpokenH s }

/-- Status message built by the utterance's `onstart` handler. -/
def readingMsg (pageIndex : Nat) (word : String) (rate : ℚ) (skip : Bool) : String :=
  "Reading page " ++ toString (pageIndex + 1) ++ ": \"" ++ word ++ "\" (" ++
    toString rate ++ "x speed)" ++
    (if skip then " (skipping headers/footers)" else "")

/-- Status message written at the end of `jumpToWordAndPlay`. -/
def startedReadingMsg (pageIndex : Nat) (word : String) : String :=
  "Started reading from page " ++ toString (pageIndex + 1) ++ ", word: \"" ++ word ++ "\""

/-! ## Playback handlers -/

/-- Embeds `handleStop()`: `speechSynthesis.cancel()`, clear the playing and
paused flags, clear all highlighting, report "Reading stopped"
(`updateControlsState` only touches button DOM state and has no model). -/
def handleStop (s : AppState) : AppState × List Event :=
  let s := { s with ttsSpeaking := false, ttsPaused := false }
  let s := { s with isPlaying := false, isPaused := false }
  let s := clearHighlighting s
  updateStatus s "Reading stopped"

/-- Embeds one entry into `startReading()` up to the dispatch of a single
utterance: the end-of-document branch (`handleStop` plus the finished
status), the page-advance recursion when the word index is past the end of
the page, the fallback recursion when the indexed word is `undefined`, and
otherwise highlight, utterance construction and `speechSynthesis.speak`,
with the `onstart` status fired at dispatch.  The `onend` continuation is a
separate function (`onendStep`). -/
def startReadingStep (s : AppState) : AppState × List Event :=
  if h : s.currentPDF.isNone = true ∨ pageCount s ≤ s.currentPageIndex then
    let r := handleStop s
    let r2 := updateStatus r.1 "Finished reading the document."
    (r2.1, r.2 ++ r2.2)
  else
    if h2 : (wordsToUse s s.currentPageIndex).length ≤ s.currentWordIndex then
      startReadingStep
        { s with currentPageIndex := s.currentPageIndex + 1, currentWordIndex := 0 }
    else
      match wordLookup (wordsToUse s s.currentPageIndex) s.currentWordIndex with
      | none =>
        startReadingStep { s with currentWordIndex := s.currentWordIndex + 1 }
      | some currentWord =>
        let s := highlightCurrentWord s
        let u : Utterance :=
          { text := currentWord.word, rate := min s.speechRate 10, pitch := 1, volume := 1 }
        let s := { s with currentUtterance := some u, ttsSpeaking := true }
        let r := updateStatus s
          (readingMsg s.currentPageIndex currentWord.word s.speechRate s.skipHeaderFooter)
        (r.1, Event.speak currentWord.word u.rate :: r.2)
termination_by (pageCount s - s.currentPageIndex,
  (wordsToUse s s.currentPageIndex).length - s.currentWordIndex)
decreasing_by
  · simp only [pageCount, wordsToUse]
    apply Prod.Lex.left
    push_neg at h
    rcases hpdf : s.currentPDF with _ | pdf
    · simp [hpdf] at h
    · simp only [hpdf, pageCount] at h ⊢
      omega
  · simp only [pageCount, wordsToUse] at h2 ⊢
    apply Prod.Lex.right
    omega

/-- Embeds the `onend` handler registered on each utterance in
`startReading`: only if still playing and not paused, mark the word as
spoken, advance the word index and re-enter `startReading` (the
`setTimeout` inter-word delay, inversely proportional to the rate, has no
behavioural model). -/
def onendStep (s : AppState) : AppState × List Event :=
  if s.isPlaying && !s.isPaused then
    let s := markWordAsSpoken s
    let s := { s with currentWordIndex := s.currentWordIndex + 1 }
    startReadingStep s
  else
    (s, [])

/-- Embeds `handlePlay()`: no-op without a document; if paused, resume the
outstanding utterance in place; otherwise set the playing flag and enter
`startReading`. -/
def handlePlay (s : AppState) : AppState × List Event :=
  match s.currentPDF with
  | none => (s, [])
  | some _ =>
    if s.isPaused then
      ({ s with ttsPaused := false, isPaused := false }, [])
    else
      let s := { s with isPlaying := true }
      startReadingStep s

/-- Embeds `handlePause()`: only while the speech capability is actively
speaking and not already paused, suspend it, set the paused flag and report
the pause. -/
def handlePause (s : AppState) : AppState × List Event :=
  if s.ttsSpeaking && !s.ttsPaused then
    let s := { s with ttsPaused := true, isPaused := true }
    updateStatus s "Reading paused - Press Spacebar or click Resume to continue"
  else
    (s, [])

/-- Embeds `handleSpeedChange(event)` with the parsed slider value passed as
`newRate`: store the rate (the `speedValue` display is DOM-only), and if
actively playing, `speechSynthesis.cancel()` followed by the
`setTimeout(() => this.startReading(), 10)` restart, embedded as the
immediately following `startReading` entry since nothing else runs on the
event loop in between. -/
def handleSpeedChange (s : AppState) (newRate : ℚ) : AppState × List Event :=
  let s := { s with speechRate := newRate }
  if s.isPlaying && !s.isPaused then
    let s := { s with ttsSpeaking := false, ttsPaused := false }
    startReadingStep s
  else
    (s, [])

/-- Highlight state after the `clearHighlighting()` call of
`jumpToWordAndPlay` followed by adding `clicked-start` to the clicked word's
element when the word index has one. -/
def seekHighlight (s : AppState) (pageIndex wordIndex : Nat) : HighlightState :=
  if findWordElement s pageIndex wordIndex then
    { currentWord := [], spokenWord := [], clickedStart := [(pageIndex, wordIndex)] }
  else
    { currentWord := [], spokenWord := [], clickedStart := [] }

/-- State mutations of `jumpToWordAndPlay` between the optional stop and
the `startReading` call: set the cursor to the clicked coordinates, apply
`seekHighlight`, set the playing flag and clear the paused flag. -/
def seekPrepare (s : AppState) (pageIndex wordIndex : Nat) : AppState :=
  { s with currentPageIndex := pageIndex, currentWordIndex := wordIndex,
           highlight := seekHighlight s pageIndex wordIndex,
           isPlaying := true, isPaused := false }

/-- Embeds `jumpToWordAndPlay(pageIndex, wordIndex)`: no-op without a
document; `handleStop` if playing; set the cursor, clear highlighting and
mark the clicked word with `clicked-start` when its element exists, set the
playing flag (`seekPrepare`); enter `startReading`; finally report the seek
target when the effective word list has a word at the clicked
coordinates. -/
def jumpToWordAndPlay (s : AppState) (pageIndex wordIndex : Nat) : AppState × List Event :=
  match s.currentPDF with
  | none => (s, [])
  | some _ =>
    let r1 := if s.isPlaying then handleStop s else (s, [])
    let r2 := startReadingStep (seekPrepare r1.1 pageIndex wordIndex)
    match wordLookup (wordsToUse r2.1 pageIndex) wordIndex with
    | some targetWord =>
      let r3 := updateStatus r2.1 (startedReadingMsg pageIndex targetWord.word)
      (r3.1, r1.2 ++ r2.2 ++ r3.2)
    | none => (r2.1, r1.2 ++ r2.2)

/-- The full playback loop of `startReading` when no user action interrupts
it: every branch of `startReading` inlined, and after each dispatched
utterance its `ended` signal fires and, still guarded on
`isPlaying && !isPaused`, marks the word spoken, advances the word index and
re-enters the loop.  When the guard fails the chain stops with the utterance
outstanding. -/
def readRun (s : AppState) : AppState × List Event :=
  if h : s.currentPDF.isNone = true ∨ pageCount s ≤ s.currentPageIndex then
    let r := handleStop s
    let r2 := updateStatus r.1 "Finished reading the document."
    (r2.1, r.2 ++ r2.2)
  else
    if h2 : (wordsToUse s s.currentPageIndex).length ≤ s.currentWordIndex then
      readRun { s with currentPageIndex := s.currentPageIndex + 1, currentWordIndex := 0 }
    else
      match wordLookup (wordsToUse s s.currentPageIndex) s.currentWordIndex with
      | none =>
        readRun { s with currentWordIndex := s.currentWordIndex + 1 }
      | some currentWord =>
        let s := highlightCurrentWord s
        let u : Utterance :=
          { text := currentWord.word, rate := min s.speechRate 10, pitch := 1, volume := 1 }
        let s := { s with currentUtterance := some u, ttsSpeaking := true }
        let r := updateStatus s
          (readingMsg s.currentPageIndex currentWord.word s.speechRate s.skipHeaderFooter)
        let s := r.1
        if s.isPlaying && !s.isPaused then
          let s := markWordAsSpoken s
          let s := { s with currentWordIndex := s.currentWordIndex + 1 }
          let r4 := readRun s
          (r4.1, Event.speak currentWord.word u.rate :: (r.2 ++ r4.2))
        else
          (s, Event.speak currentWord.word u.rate :: r.2)
termination_by (pageCount s - s.currentPageIndex,
  (wordsToUse s s.currentPageIndex).length - s.currentWordIndex)
decreasing_by
  · simp only [pageCount, wordsToUse]
    apply Prod.Lex.left
    push_neg at h
    rcases hpdf : s.currentPDF with _ | pdf
    · simp [hpdf] at h
    · simp only [hpdf, pageCount] at h ⊢
      omega
  · simp only [pageCount, wordsToUse] at h2 ⊢
    apply Prod.Lex.right
    omega
  · simp only [pageCount, wordsToUse, updateStatus, markWordAsSpoken,
      highlightCurrentWord] at h2 ⊢
    apply Prod.Lex.right
    omega

/-! ## Upload path -/

/-- Embeds `updateCurrentWordsData()`: for each page, the backend word list
when headers/footers are skipped, otherwise words re-tokenized from the
original text. -/
def updateCurrentWordsData (s : AppState) : AppState :=
  match s.currentPDF with
  | none => s
  | some pdf =>
    { s with currentWordsData := pdf.pages.map fun page =>
        if s.skipHeaderFooter then page.words
        else extractWordsFromText page.original_text }

/-- Embeds `getHeaderFooterInfo()`. -/
def getHeaderFooterInfo (s : AppState) : String :=
  match s.currentPDF with
  | none => ""
  | some pdf =>
    if 0 < pdf.header_patterns.length + pdf.footer_patterns.length then
      "Detected " ++ toString pdf.header_patterns.length ++ " header(s) and " ++
        toString pdf.footer_patterns.length ++ " footer(s)."
    else
      "No repeating headers/footers detected."

/-- Word-index effect of `renderPDF()`: the `wordElements` map is cleared
and repopulated with one `(pageIndex, wordIndex)` key per word rendered; a
page contributes word elements only when it is rendered as interactive text
(not in image view), with `wordsToUse = this.currentWordsData[pageIndex] || []`. -/
def renderPDF (s : AppState) : AppState :=
  match s.currentPDF with
  | none => s
  | some pdf =>
    { s with wordElements :=
        (pdf.pages.enum.map fun pi =>
          if s.isImageView then []
          else (List.range (wordsToUse s pi.1).length).map fun wi => (pi.1, wi)).flatten }

/-- Embeds `handleUpload()` with the selected file and the outcome of the
`axios.post` call passed explicitly: no file selected is a local status
message; a transport error is caught and reported; on success the document
is installed, the effective word data rebuilt, the pages re-rendered
(`enableControls` is DOM-only) and a summary status written. -/
def handleUpload (s : AppState) (file : Option String)
    (response : Except String PDFData) : AppState × List Event :=
  match file with
  | none => updateStatus s "Please select a PDF file"
  | some _ =>
    let r1 := updateStatus s "Uploading and processing PDF..."
    match response with
    | Except.error _ =>
      let r2 := updateStatus r1.1 "Error uploading PDF. Please try again."
      (r2.1, r1.2 ++ r2.2)
    | Except.ok pdf =>
      let s := { r1.1 with currentPDF := some pdf }
      let s := updateCurrentWordsData s
      let s := renderPDF s
      let s := { s with keyboardListenerActive := true }
      let r2 := updateStatus s
        ("PDF loaded successfully. " ++ getHeaderFooterInfo s ++
          " Click Play or press Spacebar to start reading.")
      (r2.1, r1.2 ++ r2.2)

/-! ## Tokenizer lemmas -/

lemma dropWhile_head_not (p : Char → Bool) :
    ∀ (l : List Char) (c : Char) (rest : List Char),
      l.dropWhile p = c :: rest → p c = false := by
  intro l
  induction l with
  | nil => intro c rest h; simp at h
  | cons a t ih =>
    intro c rest h
    by_cases ha : p a
    · rw [List.dropWhile_cons_of_pos ha] at h
      exact ih c rest h
    · rw [List.dropWhile_cons_of_neg ha] at h
      cases h
      simpa using ha

lemma take_length_takeWhile (p : Char → Bool) :
    ∀ l : List Char, l.take (l.takeWhile p).length = l.takeWhile p := by
  intro l
  induction l with
  | nil => simp
  | cons a t ih =>
    by_cases ha : p a
    · rw [List.takeWhile_cons_of_pos ha]
      simpa using ih
    · rw [List.takeWhile_cons_of_neg ha]
      simp

lemma length_takeWhile_add_dropWhile (p : Char → Bool) (l : List Char) :
    (l.takeWhile p).length + (l.dropWhile p).length = l.length := by
  have h := congrArg List.length (List.takeWhile_append_dropWhile (p := p) (l := l))
  rw [List.length_append] at h
  exact h

lemma length_takeWhile_pos (p : Char → Bool) (c : Char) (rest : List Char)
    (h : p c = true) : 0 < ((c :: rest).takeWhile p).length := by
  rw [List.takeWhile_cons_of_pos h]
  simp

lemma extractWordsAux_bounds :
    ∀ (cs : List Char) (i : Nat), ∀ w ∈ extractWordsAux cs i,
      i ≤ w.start_pos ∧ w.start_pos < w.end_pos ∧ w.end_pos ≤ i + cs.length := by
  intro cs i
  induction cs, i using extractWordsAux.induct with
  | case1 i => simp [extractWordsAux]
  | case2 i c rest h run ih =>
    intro w hw
    rw [extractWordsAux] at hw
    simp only [dif_pos h, List.mem_cons] at hw
    have hlen := length_takeWhile_add_dropWhile isWordChar (c :: rest)
    have hpos := length_takeWhile_pos isWordChar c rest h
    have hrun : run = List.takeWhile isWordChar (c :: rest) := rfl
    rw [hrun] at ih
    rcases hw with hw | hw
    · subst hw
      simp only [List.length_cons] at hlen ⊢
      refine ⟨Nat.le_refl _, ?_, ?_⟩ <;> omega
    · have := ih w hw
      simp only [List.length_cons] at hlen ⊢
      omega
  | case3 i c rest h ih =>
    intro w hw
    rw [extractWordsAux] at hw
    simp only [dif_neg h] at hw
    have := ih w hw
    simp only [List.length_cons]
    omega

lemma extractWordsAux_content :
    ∀ (cs : List Char) (i : Nat), ∀ w ∈ extractWordsAux cs i,
      w.word.data = (cs.drop (w.start_pos - i)).take (w.end_pos - w.start_pos) ∧
      ∀ ch ∈ w.word.data, isWordChar ch = true := by
  intro cs i
  induction cs, i using extractWordsAux.induct with
  | case1 i => simp [extractWordsAux]
  | case2 i c rest h run ih =>
    intro w hw
    rw [extractWordsAux] at hw
    simp only [dif_pos h, List.mem_cons] at hw
    have hrun : run = List.takeWhile isWordChar (c :: rest) := rfl
    rw [hrun] at ih
    have hsplit := List.takeWhile_append_dropWhile (p := isWordChar) (l := c :: rest)
    rcases hw with hw | hw
    · subst hw
      constructor
      · simp only [Nat.sub_self, List.drop_zero, Nat.add_sub_cancel_left]
        exact (take_length_takeWhile isWordChar (c :: rest)).symm
      · intro ch hch
        exact List.mem_takeWhile_imp hch
    · have hb := extractWordsAux_bounds _ _ w hw
      obtain ⟨hcontent, hchars⟩ := ih w hw
      refine ⟨?_, hchars⟩
      rw [hcontent]
      have hdrop : (c :: rest).drop (w.start_pos - i) =
          (List.dropWhile isWordChar (c :: rest)).drop
            (w.start_pos - (i + (List.takeWhile isWordChar (c :: rest)).length)) := by
        conv_lhs => rw [← hsplit]
        rw [List.drop_append_eq_append_drop]
        have hge : (List.takeWhile isWordChar (c :: rest)).length ≤ w.start_pos - i := by
          omega
        rw [List.drop_eq_nil_of_le hge, List.nil_append]
        congr 1
        omega
      rw [hdrop]
  | case3 i c rest h ih =>
    intro w hw
    rw [extractWordsAux] at hw
    simp only [dif_neg h] at hw
    have hb := extractWordsAux_bounds _ _ w hw
    obtain ⟨hcontent, hchars⟩ := ih w hw
    refine ⟨?_, hchars⟩
    rw [hcontent]
    obtain ⟨k, hk⟩ : ∃ k, w.start_pos - i = k + 1 := ⟨w.start_pos - i - 1, by omega⟩
    rw [hk, List.drop_succ_cons]
    congr 2
    omega

lemma extractWordsAux_no_word_at_start_of_dropWhile (cs : List Char) (j : Nat)
    (w : WordData) (hw : w ∈ extractWordsAux (cs.dropWhile isWordChar) j) :
    j < w.start_pos := by
  have hb := extractWordsAux_bounds _ _ w hw
  rcases Nat.lt_or_ge j w.start_pos with hlt | hge
  · exact hlt
  · exfalso
    have hstart : w.start_pos = j := by omega
    rcases hdw : cs.dropWhile isWordChar with _ | ⟨d, tail⟩
    · rw [hdw] at hw hb
      simp at hb
      omega
    · rw [hdw] at hw hb
      have hd := dropWhile_head_not isWordChar cs d tail hdw
      obtain ⟨hcontent, hchars⟩ := extractWordsAux_content _ _ w hw
      rw [hstart, Nat.sub_self, List.drop_zero] at hcontent
      obtain ⟨m, hm⟩ : ∃ m, w.end_pos - j = m + 1 := ⟨w.end_pos - j - 1, by omega⟩
      rw [hm, List.take_succ_cons] at hcontent
      have hdmem : d ∈ w.word.data := by rw [hcontent]; simp
      have := hchars d hdmem
      rw [hd] at this
      exact Bool.false_ne_true this

lemma extractWordsAux_left_boundary :
    ∀ (cs : List Char) (i : Nat), ∀ w ∈ extractWordsAux cs i,
      w.start_pos = i ∨ isWordChar (cs.getD (w.start_pos - i - 1) ' ') = false := by
  intro cs i
  induction cs, i using extractWordsAux.induct with
  | case1 i => simp [extractWordsAux]
  | case2 i c rest h run ih =>
    intro w hw
    rw [extractWordsAux] at hw
    simp only [dif_pos h, List.mem_cons] at hw
    have hrun : run = List.takeWhile isWordChar (c :: rest) := rfl
    rw [hrun] at ih
    have hsplit := List.takeWhile_append_dropWhile (p := isWordChar) (l := c :: rest)
    rcases hw with hw | hw
    · subst hw
      exact Or.inl rfl
    · right
      have hb := extractWordsAux_bounds _ _ w hw
      have hgt := extractWordsAux_no_word_at_start_of_dropWhile (c :: rest) _ w hw
      rcases ih w hw with hstart | hleft
      · omega
      · have hidx : (c :: rest).getD (w.start_pos - i - 1) ' ' =
            (List.dropWhile isWordChar (c :: rest)).getD
              (w.start_pos - (i + (List.takeWhile isWordChar (c :: rest)).length) - 1) ' ' := by
          conv_lhs => rw [← hsplit]
          rw [List.getD_append_right _ _ _ _ (by omega)]
          congr 1
          omega
        rw [hidx]
        exact hleft
  | case3 i c rest h ih =>
    intro w hw
    rw [extractWordsAux] at hw
    simp only [dif_neg h] at hw
    have hb := extractWordsAux_bounds _ _ w hw
    right
    by_cases hcase : w.start_pos = i + 1
    · have hidx : w.start_pos - i - 1 = 0 := by omega
      rw [hidx]
      simpa using h
    · rcases ih w hw with hstart | hleft
      · exact absurd hstart hcase
      · have hidx : (c :: rest).getD (w.start_pos - i - 1) ' ' =
            rest.getD (w.start_pos - (i + 1) - 1) ' ' := by
          obtain ⟨k, hk⟩ : ∃ k, w.start_pos - i - 1 = k + 1 := ⟨w.start_pos - i - 2, by omega⟩
          rw [hk, List.getD_cons_succ]
          congr 1
          omega
        rw [hidx]
        exact hleft

lemma extractWordsAux_right_boundary :
    ∀ (cs : List Char) (i : Nat), ∀ w ∈ extractWordsAux cs i,
      w.end_pos = i + cs.length ∨ isWordChar (cs.getD (w.end_pos - i) ' ') = false := by
  intro cs i
  induction cs, i using extractWordsAux.induct with
  | case1 i => simp [extractWordsAux]
  | case2 i c rest h run ih =>
    intro w hw
    rw [extractWordsAux] at hw
    simp only [dif_pos h, List.mem_cons] at hw
    have hrun : run = List.takeWhile isWordChar (c :: rest) := rfl
    rw [hrun] at ih
    have hsplit := List.takeWhile_append_dropWhile (p := isWordChar) (l := c :: rest)
    have hlen := length_takeWhile_add_dropWhile isWordChar (c :: rest)
    rcases hw with hw | hw
    · rcases hdw : List.dropWhile isWordChar (c :: rest) with _ | ⟨d, tail⟩
      · left
        subst hw
        rw [hdw] at hlen
        simp only [List.length_nil, Nat.add_zero] at hlen
        simp [hlen]
      · right
        subst hw
        have hd := dropWhile_head_not isWordChar (c :: rest) d tail hdw
        simp only [Nat.add_sub_cancel_left]
        obtain ⟨n, hn⟩ : ∃ n, (List.takeWhile isWordChar (c :: rest)).length = n := ⟨_, rfl⟩
        rw [hn]
        have hcs : c :: rest = List.takeWhile isWordChar (c :: rest) ++ (d :: tail) := by
          rw [← hdw]
          exact hsplit.symm
        rw [hcs, List.getD_append_right _ _ _ _ hn.le, hn, Nat.sub_self, List.getD_cons_zero]
        exact hd
    · have hb := extractWordsAux_bounds _ _ w hw
      rcases ih w hw with hend | hright
      · left
        rw [hend]
        omega
      · right
        have hidx : (c :: rest).getD (w.end_pos - i) ' ' =
            (List.dropWhile isWordChar (c :: rest)).getD
              (w.end_pos - (i + (List.takeWhile isWordChar (c :: rest)).length)) ' ' := by
          conv_lhs => rw [← hsplit]
          rw [List.getD_append_right _ _ _ _ (by omega)]
          congr 1
          omega
        rw [hidx]
        exact hright
  | case3 i c rest h ih =>
    intro w hw
    rw [extractWordsAux] at hw
    simp only [dif_neg h] at hw
    have hb := extractWordsAux_bounds _ _ w hw
    rcases ih w hw with hend | hright
    · left
      rw [hend]
      simp only [List.length_cons]
      omega
    · right
      have hidx : (c :: rest).getD (w.end_pos - i) ' ' =
          rest.getD (w.end_pos - (i + 1)) ' ' := by
        obtain ⟨k, hk⟩ : ∃ k, w.end_pos - i = k + 1 := ⟨w.end_pos - i - 1, by omega⟩
        rw [hk, List.getD_cons_succ]
        congr 1
        omega
      rw [hidx]
      exact hright

lemma extractWordsAux_chain :
    ∀ (cs : List Char) (i : Nat),
      List.Chain' (fun a b => a.end_pos ≤ b.start_pos) (extractWordsAux cs i) := by
  intro cs i
  induction cs, i using extractWordsAux.induct with
  | case1 i => simp [extractWordsAux]
  | case2 i c rest h run ih =>
    rw [extractWordsAux]
    simp only [dif_pos h]
    refine List.Chain'.cons' ih ?_
    intro y hy
    have hmem := List.mem_of_mem_head? hy
    have hb := extractWordsAux_bounds _ _ y hmem
    simp only []
    omega
  | case3 i c rest h ih =>
    rw [extractWordsAux]
    simp only [dif_neg h]
    exact ih

lemma extractWordsAux_complete :
    ∀ (cs : List Char) (i : Nat) (j : Nat), j < cs.length →
      isWordChar (cs.getD j ' ') = true →
      ∃ w ∈ extractWordsAux cs i, w.start_pos ≤ i + j ∧ i + j < w.end_pos := by
  intro cs i
  induction cs, i using extractWordsAux.induct with
  | case1 i => simp
  | case2 i c rest h run ih =>
    intro j hj hcj
    rw [extractWordsAux]
    simp only [dif_pos h]
    have hrun : run = List.takeWhile isWordChar (c :: rest) := rfl
    rw [hrun] at ih
    have hsplit := List.takeWhile_append_dropWhile (p := isWordChar) (l := c :: rest)
    have hlen := length_takeWhile_add_dropWhile isWordChar (c :: rest)
    by_cases hcase : j < (List.takeWhile isWordChar (c :: rest)).length
    · refine ⟨_, List.mem_cons_self _ _, ?_, ?_⟩ <;> simp only [] <;> omega
    · have hidx : (c :: rest).getD j ' ' =
          (List.dropWhile isWordChar (c :: rest)).getD
            (j - (List.takeWhile isWordChar (c :: rest)).length) ' ' := by
        conv_lhs => rw [← hsplit]
        rw [List.getD_append_right _ _ _ _ (by omega)]
      rw [hidx] at hcj
      obtain ⟨w, hw, hcov⟩ := ih (j - (List.takeWhile isWordChar (c :: rest)).length)
        (by simp only [List.length_cons] at hj hlen ⊢; omega) hcj
      refine ⟨w, List.mem_cons_of_mem _ hw, ?_, ?_⟩ <;> omega
  | case3 i c rest h ih =>
    intro j hj hcj
    rw [extractWordsAux]
    simp only [dif_neg h]
    rcases j with _ | j
    · simp only [List.getD_cons_zero] at hcj
      rw [hcj] at h
      simp at h
    · simp only [List.getD_cons_succ] at hcj
      obtain ⟨w, hw, hcov⟩ := ih j (by simp only [List.length_cons] at hj; omega) hcj
      refine ⟨w, hw, ?_⟩
      omega

lemma extractWordsAux_all_not_word (cs : List Char) (i : Nat)
    (hall : ∀ c ∈ cs, isWordChar c = false) : extractWordsAux cs i = [] := by
  induction cs, i using extractWordsAux.induct with
  | case1 i => simp [extractWordsAux]
  | case2 i c rest h run ih =>
    exfalso
    have := hall c (List.mem_cons_self _ _)
    rw [this] at h
    exact Bool.false_ne_true h
  | case3 i c rest h ih =>
    rw [extractWordsAux]
    simp only [dif_neg h]
    exact ih fun x hx => hall x (List.mem_cons_of_mem _ hx)

lemma sliceChars_self (text : List Char) (a : Nat) : sliceChars text a a = [] := by
  unfold sliceChars
  exact List.drop_eq_nil_of_le (List.length_take_le _ _)

lemma sliceChars_take_left (pre xs : List Char) (i lastIndex : Nat)
    (hpre : pre.length = i) (hlast : lastIndex ≤ i) :
    sliceChars (pre ++ xs) lastIndex i = pre.drop lastIndex := by
  unfold sliceChars
  rw [List.take_left' hpre]

lemma reassembleChars_extractWordsAux :
    ∀ (cs : List Char) (i : Nat) (pre : List Char) (lastIndex : Nat),
      pre.length = i → lastIndex ≤ i →
      reassembleChars (pre ++ cs) lastIndex (extractWordsAux cs i) =
        sliceChars (pre ++ cs) lastIndex i ++ cs := by
  intro cs i
  induction cs, i using extractWordsAux.induct with
  | case1 i =>
    intro pre lastIndex hpre hlast
    subst hpre
    rw [extractWordsAux]
    simp only [reassembleChars, List.append_nil]
    unfold sliceChars
    rw [List.take_length]
    rcases Nat.eq_or_lt_of_le hlast with heq | hlt
    · rw [heq, if_neg (Nat.lt_irrefl _), List.drop_length]
    · rw [if_pos hlt]
  | case2 i c rest h run ih =>
    intro pre lastIndex hpre hlast
    rw [extractWordsAux]
    simp only [dif_pos h]
    have hrun : run = List.takeWhile isWordChar (c :: rest) := rfl
    have hsplit := List.takeWhile_append_dropWhile (p := isWordChar) (l := c :: rest)
    have hT : (pre ++ run) ++ List.dropWhile isWordChar (c :: rest) = pre ++ (c :: rest) := by
      rw [List.append_assoc, hrun, hsplit]
    have hih := ih (pre ++ run) (i + run.length)
      (by rw [List.length_append, hpre]) (Nat.le_refl _)
    rw [hT] at hih
    simp only [reassembleChars]
    rw [hih, sliceChars_self, List.nil_append]
    rw [sliceChars_take_left pre (c :: rest) i lastIndex hpre hlast]
    rcases Nat.eq_or_lt_of_le hlast with heq | hlt
    · rw [heq, if_neg (Nat.lt_irrefl i)]
      rw [List.drop_eq_nil_of_le (Nat.le_of_eq hpre)]
      simp only [List.nil_append]
      exact hsplit
    · rw [if_pos hlt]
      rw [List.append_assoc, hsplit]
  | case3 i c rest h ih =>
    intro pre lastIndex hpre hlast
    rw [extractWordsAux]
    simp only [dif_neg h]
    have hT : (pre ++ [c]) ++ rest = pre ++ (c :: rest) := by
      rw [List.append_assoc]
      rfl
    have hih := ih (pre ++ [c]) lastIndex
      (by rw [List.length_append, hpre]; rfl) (Nat.le_succ_of_le hlast)
    rw [hT] at hih
    rw [hih]
    rw [sliceChars_take_left pre (c :: rest) i lastIndex hpre hlast]
    have hslice : sliceChars (pre ++ [c] ++ rest) lastIndex (i + 1) =
        pre.drop lastIndex ++ [c] := by
      rw [hT]
      unfold sliceChars
      have htake : (pre ++ (c :: rest)).take (i + 1) = pre ++ [c] := by
        rw [List.take_append_eq_append_take]
        rw [List.take_of_length_le (by omega)]
        congr 1
        rw [hpre]
        simp
      rw [htake, List.drop_append_eq_append_drop]
      rw [show lastIndex - pre.length = 0 by omega]
      simp
    rw [hT] at hslice
    rw [hslice, List.append_assoc]
    rfl

/-- Claim C6: for every input string, interleaving the inter-word gaps with
the tokenizer's word texts at their offsets — exactly as `createWordElements`
emits text nodes and word spans — reconstructs the input exactly. -/
theorem tokenizer_roundTrip (t : String) :
    reassembleChars t.data 0 (extractWordsFromText t) = t.data := by
  have h := reassembleChars_extractWordsAux t.data 0 [] 0 rfl (Nat.le_refl 0)
  simp only [List.nil_append] at h
  show reassembleChars t.data 0 (extractWordsAux t.data 0) = t.data
  rw [h]
  simp [sliceChars]

/-- Claim C7: `extractWordsFromText` returns exactly the maximal runs of
alphanumeric/underscore characters, in left-to-right order: every word has
`start_pos < end_pos ≤ length`, words are non-overlapping with ascending
offsets, every word is a run of word characters of the input delimited on
both sides by the string boundary or a non-word character, every word
character of the input is covered by some word, and empty input or input
with no word characters yields the empty sequence. -/
theorem extractWords_maximal_runs (t : String) :
    (∀ w ∈ extractWordsFromText t, w.start_pos < w.end_pos ∧ w.end_pos ≤ t.length) ∧
    List.Chain' (fun a b => a.end_pos ≤ b.start_pos) (extractWordsFromText t) ∧
    (∀ w ∈ extractWordsFromText t,
      w.word.data = (t.data.drop w.start_pos).take (w.end_pos - w.start_pos) ∧
      (∀ ch ∈ w.word.data, isWordChar ch = true) ∧
      (w.start_pos = 0 ∨ isWordChar (t.data.getD (w.start_pos - 1) ' ') = false) ∧
      (w.end_pos = t.length ∨ isWordChar (t.data.getD w.end_pos ' ') = false)) ∧
    (∀ j, j < t.length → isWordChar (t.data.getD j ' ') = true →
      ∃ w ∈ extractWordsFromText t, w.start_pos ≤ j ∧ j < w.end_pos) ∧
    extractWordsFromText "" = [] ∧
    ((∀ c ∈ t.data, isWordChar c = false) → extractWordsFromText t = []) := by
  refine ⟨?_, ?_, ?_, ?_, ?_, ?_⟩
  · intro w hw
    have hb := extractWordsAux_bounds t.data 0 w hw
    simp only [String.length]
    omega
  · exact extractWordsAux_chain t.data 0
  · intro w hw
    obtain ⟨hc, hchars⟩ := extractWordsAux_content t.data 0 w hw
    refine ⟨by simpa using hc, hchars, ?_, ?_⟩
    · have hl := extractWordsAux_left_boundary t.data 0 w hw
      simp only [Nat.sub_zero] at hl
      exact hl
    · have hr := extractWordsAux_right_boundary t.data 0 w hw
      simp only [Nat.zero_add, Nat.sub_zero] at hr
      exact hr
  · intro j hj hcj
    have hc := extractWordsAux_complete t.data 0 j hj hcj
    simpa using hc
  · show extractWordsAux "".data 0 = []
    have hd : "".data = ([] : List Char) := rfl
    rw [hd]
    exact extractWordsAux_all_not_word [] 0 (by intro c hc; cases hc)
  · intro hall
    exact extractWordsAux_all_not_word t.data 0 hall

unseal extractWordsAux in
/-- Witness for C7 at the concrete input "ab cd": the word "cd" at offsets
(3, 5) is produced, and the theorem yields its offset bounds. -/
theorem extractWords_maximal_runs_witness :
    (⟨"cd", 3, 5⟩ : WordData) ∈ extractWordsFromText "ab cd" ∧
      ((3 : Nat) < 5 ∧ 5 ≤ "ab cd".length) :=
  ⟨by decide, (extractWords_maximal_runs "ab cd").1 ⟨"cd", 3, 5⟩ (by decide)⟩

/-! ## Playback engine lemmas -/

@[simp] lemma highlightCurrentWord_currentPDF (s : AppState) :
    (highlightCurrentWord s).currentPDF = s.currentPDF := rfl

@[simp] lemma highlightCurrentWord_currentPageIndex (s : AppState) :
    (highlightCurrentWord s).currentPageIndex = s.currentPageIndex := rfl

@[simp] lemma highlightCurrentWord_currentWordIndex (s : AppState) :
    (highlightCurrentWord s).currentWordIndex = s.currentWordIndex := rfl

@[simp] lemma highlightCurrentWord_currentWordsData (s : AppState) :
    (highlightCurrentWord s).currentWordsData = s.currentWordsData := rfl

@[simp] lemma highlightCurrentWord_isPlaying (s : AppState) :
    (highlightCurrentWord s).isPlaying = s.isPlaying := rfl

@[simp] lemma highlightCurrentWord_isPaused (s : AppState) :
    (highlightCurrentWord s).isPaused = s.isPaused := rfl

@[simp] lemma markWordAsSpoken_currentPDF (s : AppState) :
    (markWordAsSpoken s).currentPDF = s.currentPDF := rfl

@[simp] lemma markWordAsSpoken_currentPageIndex (s : AppState) :
    (markWordAsSpoken s).currentPageIndex = s.currentPageIndex := rfl

@[simp] lemma markWordAsSpoken_currentWordIndex (s : AppState) :
    (markWordAsSpoken s).currentWordIndex = s.currentWordIndex := rfl

@[simp] lemma markWordAsSpoken_currentWordsData (s : AppState) :
    (markWordAsSpoken s).currentWordsData = s.currentWordsData := rfl

@[simp] lemma markWordAsSpoken_isPlaying (s : AppState) :
    (markWordAsSpoken s).isPlaying = s.isPlaying := rfl

@[simp] lemma markWordAsSpoken_isPaused (s : AppState) :
    (markWordAsSpoken s).isPaused = s.isPaused := rfl

@[simp] lemma handleStop_fst (s : AppState) :
    (handleStop s).1 =
      { s with ttsSpeaking := false, ttsPaused := false, isPlaying := false,
               isPaused := false,
               highlight := { currentWord := [], spokenWord := [], clickedStart := [] },
               status := "Reading stopped" } := rfl

@[simp] lemma handleStop_snd (s : AppState) :
    (handleStop s).2 = [Event.status "Reading stopped"] := rfl

lemma pageCount_eq (s : AppState) (pdf : PDFData) (hpdf : s.currentPDF = some pdf) :
    pageCount s = pdf.pages.length := by
  simp [pageCount, hpdf]

lemma wordLookup_get (words : List WordData) (i : Nat) (h : i < words.length) :
    wordLookup words i = some (words.get ⟨i, h⟩) := by
  simp [wordLookup, List.getElem?_eq_getElem h]

lemma wordLookup_lt (words : List WordData) (i : Nat) (cw : WordData)
    (h : wordLookup words i = some cw) : i < words.length := by
  by_contra hge
  rw [wordLookup, List.getElem?_eq_none (by omega)] at h
  cases h

lemma startReadingStep_dispatch (s : AppState) (pdf : PDFData) (cw : WordData)
    (hpdf : s.currentPDF = some pdf)
    (hp : s.currentPageIndex < pdf.pages.length)
    (hcw : wordLookup (wordsToUse s s.currentPageIndex) s.currentWordIndex = some cw) :
    startReadingStep s =
      ({ s with highlight := highlightCurrentWordH s,
                currentUtterance := some
                  { text := cw.word, rate := min s.speechRate 10, pitch := 1, volume := 1 },
                ttsSpeaking := true,
                status := readingMsg s.currentPageIndex cw.word
                  s.speechRate s.skipHeaderFooter },
       [Event.speak cw.word (min s.speechRate 10),
        Event.status (readingMsg s.currentPageIndex cw.word
          s.speechRate s.skipHeaderFooter)]) := by
  have hguard : ¬ (s.currentPDF.isNone = true ∨ pageCount s ≤ s.currentPageIndex) := by
    rw [pageCount_eq s pdf hpdf]
    simp [hpdf]
    omega
  have hw := wordLookup_lt _ _ _ hcw
  unfold startReadingStep
  rw [dif_neg hguard, dif_neg (Nat.not_le.mpr hw), hcw]
  rfl

/-! ## Concrete document for witnesses: the spec's two-page scenario,
page 1 `["The","cat","sat"]`, page 2 `["on","mat"]`. -/

/-- First page of the sample document. -/
def samplePage1 : PageData :=
  { page_number := 1, original_text := "The cat sat", processed_text := "The cat sat",
    words := [⟨"The", 0, 3⟩, ⟨"cat", 4, 7⟩, ⟨"sat", 8, 11⟩],
    image := none, has_header_footer_removal := false }

/-- Second page of the sample document. -/
def samplePage2 : PageData :=
  { page_number := 2, original_text := "on mat", processed_text := "on mat",
    words := [⟨"on", 0, 2⟩, ⟨"mat", 3, 6⟩],
    image := none, has_header_footer_removal := false }

/-- The sample two-page document. -/
def samplePDF : PDFData :=
  { success := true, total_pages := 2, pages := [samplePage1, samplePage2],
    header_patterns := [], footer_patterns := [] }

/-- A state with the sample document loaded and playback active at cursor
(0, 0), in text view with the word index populated. -/
def sampleState : AppState :=
  { currentPDF := some samplePDF, currentUtterance := none,
    isPlaying := true, isPaused := false,
    currentPageIndex := 0, currentWordIndex := 0, speechRate := 1,
    wordElements := [(0, 0), (0, 1), (0, 2), (1, 0), (1, 1)],
    keyboardListenerActive := true, isImageView := false, skipHeaderFooter := true,
    currentWordsData := [samplePage1.words, samplePage2.words],
    highlight := { currentWord := [], spokenWord := [], clickedStart := [] },
    ttsSpeaking := true, ttsPaused := false, status := "" }

/-- The sample state at rest: document loaded, not playing. -/
def sampleIdleState : AppState :=
  { sampleState with isPlaying := false, ttsSpeaking := false }

/-! ## Claims about the handlers -/

/-- Claim C2: if Stop runs while an utterance is outstanding, that
utterance's `ended` callback, firing right after the Stop, never mutates the
cursor or any highlight state: Stop has cleared `isPlaying`, so the
callback's guard `isPlaying && !isPaused` fails and it does nothing. -/
theorem staleOnend_after_stop_no_mutation (s : AppState) (hout : s.ttsSpeaking = true) :
    (handleStop s).1.isPlaying = false ∧
    (onendStep (handleStop s).1).1.currentPageIndex = (handleStop s).1.currentPageIndex ∧
    (onendStep (handleStop s).1).1.currentWordIndex = (handleStop s).1.currentWordIndex ∧
    (onendStep (handleStop s).1).1.highlight = (handleStop s).1.highlight ∧
    (onendStep (handleStop s).1).2 = [] := by
  refine ⟨rfl, ?_, ?_, ?_, ?_⟩ <;> simp [onendStep, handleStop, updateStatus, clearHighlighting]

/-- Witness for C2 at the active sample state, whose utterance is
outstanding. -/
theorem staleOnend_after_stop_no_mutation_witness :
    sampleState.ttsSpeaking = true ∧
      ((handleStop sampleState).1.isPlaying = false ∧
       (onendStep (handleStop sampleState).1).1.currentPageIndex =
         (handleStop sampleState).1.currentPageIndex ∧
       (onendStep (handleStop sampleState).1).1.currentWordIndex =
         (handleStop sampleState).1.currentWordIndex ∧
       (onendStep (handleStop sampleState).1).1.highlight =
         (handleStop sampleState).1.highlight ∧
       (onendStep (handleStop sampleState).1).2 = []) :=
  ⟨rfl, staleOnend_after_stop_no_mutation sampleState rfl⟩

/-- Claim C8: when the upload request fails, `handleUpload` only reports the
failure on the status channel; the loaded document, the per-page word data,
the cursor and the playback flags are exactly as before. -/
theorem upload_failure_atomic (s : AppState) (file : String) (err : String) :
    (handleUpload s (some file) (Except.error err)).1.currentPDF = s.currentPDF ∧
    (handleUpload s (some file) (Except.error err)).1.currentWordsData = s.currentWordsData ∧
    (handleUpload s (some file) (Except.error err)).1.currentPageIndex = s.currentPageIndex ∧
    (handleUpload s (some file) (Except.error err)).1.currentWordIndex = s.currentWordIndex ∧
    (handleUpload s (some file) (Except.error err)).1.isPlaying = s.isPlaying ∧
    (handleUpload s (some file) (Except.error err)).1.isPaused = s.isPaused ∧
    (handleUpload s (some file) (Except.error err)).1.wordElements = s.wordElements ∧
    (handleUpload s (some file) (Except.error err)).1.status =
      "Error uploading PDF. Please try again." ∧
    (handleUpload s (some file) (Except.error err)).2 =
      [Event.status "Uploading and processing PDF...",
       Event.status "Error uploading PDF. Please try again."] := by
  refine ⟨rfl, rfl, rfl, rfl, rfl, rfl, rfl, rfl, rfl⟩

/-- Claim C9: once the guard `currentWordIndex >= wordsToUse.length` has
failed, the JS lookup `wordsToUse[currentWordIndex]` always yields a word,
so the `if (!currentWord)` fallback branch of `startReading` is dead. -/
theorem word_lookup_total_fallback_dead (s : AppState)
    (h : ¬ (wordsToUse s s.currentPageIndex).length ≤ s.currentWordIndex) :
    (wordLookup (wordsToUse s s.currentPageIndex) s.currentWordIndex).isSome = true := by
  rw [wordLookup, List.getElem?_eq_getElem (by omega)]
  rfl

/-- Witness for C9 at the sample state. -/
theorem word_lookup_total_fallback_dead_witness :
    (¬ (wordsToUse sampleState sampleState.currentPageIndex).length ≤
        sampleState.currentWordIndex) ∧
    (wordLookup (wordsToUse sampleState sampleState.currentPageIndex)
        sampleState.currentWordIndex).isSome = true :=
  ⟨by decide, word_lookup_total_fallback_dead sampleState (by decide)⟩

/-- Claim C3: a SetRate while actively Playing stores the new rate, cancels
and restarts at the same cursor: the word at the cursor is dispatched again
exactly once and the cursor does not advance. -/
theorem speedChange_respeaks_current_word (s : AppState) (pdf : PDFData) (cw : WordData)
    (newRate : ℚ) (hpdf : s.currentPDF = some pdf)
    (hplay : s.isPlaying = true) (hpause : s.isPaused = false)
    (hp : s.currentPageIndex < pdf.pages.length)
    (hcw : wordLookup (wordsToUse s s.currentPageIndex) s.currentWordIndex = some cw) :
    (handleSpeedChange s newRate).1.currentPageIndex = s.currentPageIndex ∧
    (handleSpeedChange s newRate).1.currentWordIndex = s.currentWordIndex ∧
    (handleSpeedChange s newRate).1.speechRate = newRate ∧
    speaks (handleSpeedChange s newRate).2 = [cw.word] := by
  have hcond : (s.isPlaying && !s.isPaused) = true := by rw [hplay, hpause]; rfl
  unfold handleSpeedChange
  rw [if_pos hcond]
  rw [startReadingStep_dispatch
    { s with speechRate := newRate, ttsSpeaking := false, ttsPaused := false } pdf cw
    hpdf hp hcw]
  exact ⟨rfl, rfl, rfl, rfl⟩

/-- Witness for C3 at the sample state with the rate changed to 2. -/
theorem speedChange_respeaks_current_word_witness :
    sampleState.currentPDF = some samplePDF ∧ sampleState.isPlaying = true ∧
    sampleState.isPaused = false ∧
    sampleState.currentPageIndex < samplePDF.pages.length ∧
    wordLookup (wordsToUse sampleState sampleState.currentPageIndex)
      sampleState.currentWordIndex = some ⟨"The", 0, 3⟩ ∧
    ((handleSpeedChange sampleState 2).1.currentPageIndex = sampleState.currentPageIndex ∧
     (handleSpeedChange sampleState 2).1.currentWordIndex = sampleState.currentWordIndex ∧
     (handleSpeedChange sampleState 2).1.speechRate = 2 ∧
     speaks (handleSpeedChange sampleState 2).2 = [(⟨"The", 0, 3⟩ : WordData).word]) :=
  ⟨rfl, rfl, rfl, by decide, by decide,
    speedChange_respeaks_current_word sampleState samplePDF ⟨"The", 0, 3⟩ 2
      rfl rfl rfl (by decide) (by decide)⟩

/-- Claim C10: Play while already Playing (and not Paused) with a loaded
document is not a no-op: `handlePlay` takes the fresh-playback path and
dispatches another utterance at the current cursor. -/
theorem play_while_playing_not_noop (s : AppState) (pdf : PDFData) (cw : WordData)
    (hpdf : s.currentPDF = some pdf)
    (hplay : s.isPlaying = true) (hpause : s.isPaused = false)
    (hp : s.currentPageIndex < pdf.pages.length)
    (hcw : wordLookup (wordsToUse s s.currentPageIndex) s.currentWordIndex = some cw) :
    speaks (handlePlay s).2 = [cw.word] ∧
    (handlePlay s).1.currentPageIndex = s.currentPageIndex ∧
    (handlePlay s).1.currentWordIndex = s.currentWordIndex ∧
    (handlePlay s).1.ttsSpeaking = true := by
  unfold handlePlay
  simp only [hpdf]
  rw [startReadingStep_dispatch { s with currentPDF := some pdf, isPlaying := true }
    pdf cw rfl hp hcw]
  simp [hpause, speaks]

/-- Witness for C10 at the sample state. -/
theorem play_while_playing_not_noop_witness :
    sampleState.currentPDF = some samplePDF ∧ sampleState.isPlaying = true ∧
    sampleState.isPaused = false ∧
    sampleState.currentPageIndex < samplePDF.pages.length ∧
    wordLookup (wordsToUse sampleState sampleState.currentPageIndex)
      sampleState.currentWordIndex = some ⟨"The", 0, 3⟩ ∧
    (speaks (handlePlay sampleState).2 = [(⟨"The", 0, 3⟩ : WordData).word] ∧
     (handlePlay sampleState).1.currentPageIndex = sampleState.currentPageIndex ∧
     (handlePlay sampleState).1.currentWordIndex = sampleState.currentWordIndex ∧
     (handlePlay sampleState).1.ttsSpeaking = true) :=
  ⟨rfl, rfl, rfl, by decide, by decide,
    play_while_playing_not_noop sampleState samplePDF ⟨"The", 0, 3⟩
      rfl rfl rfl (by decide) (by decide)⟩

unseal startReadingStep in
/-- Counterexample to claim C5 as stated: with the sample document loaded
(two pages) and the engine idle, Seek to the out-of-range coordinates (5, 0)
sets the cursor but `startReading` immediately reaches the end-of-document
branch, whose `handleStop` clears `isPlaying`: the state is not Playing. -/
theorem seek_not_always_playing_cex :
    ¬ ((jumpToWordAndPlay sampleIdleState 5 0).1.currentPageIndex = 5 ∧
       (jumpToWordAndPlay sampleIdleState 5 0).1.currentWordIndex = 0 ∧
       (jumpToWordAndPlay sampleIdleState 5 0).1.isPlaying = true ∧
       (jumpToWordAndPlay sampleIdleState 5 0).1.isPaused = false) := by
  decide

/-- Claim C5 as amended: Seek to coordinates that address an existing
effective word (page in range, word index within that page's effective word
list) always results in cursor == (p, w) and state Playing, from any prior
state. -/
theorem seek_valid_coords_results_playing (s : AppState) (pdf : PDFData) (cw : WordData)
    (p w : Nat) (hpdf : s.currentPDF = some pdf)
    (hp : p < pdf.pages.length)
    (hcw : wordLookup (s.currentWordsData.getD p []) w = some cw) :
    (jumpToWordAndPlay s p w).1.currentPageIndex = p ∧
    (jumpToWordAndPlay s p w).1.currentWordIndex = w ∧
    (jumpToWordAndPlay s p w).1.isPlaying = true ∧
    (jumpToWordAndPlay s p w).1.isPaused = false := by
  unfold jumpToWordAndPlay
  simp only [hpdf]
  have hcw2 : wordLookup (s.currentWordsData[p]?.getD []) w = some cw := by
    rw [← List.getD_eq_getElem?_getD]
    exact hcw
  by_cases hpl : s.isPlaying = true
  · rw [if_pos hpl,
      startReadingStep_dispatch (seekPrepare (handleStop s).1 p w) pdf cw hpdf hp hcw]
    simp [wordsToUse, seekPrepare, updateStatus, hcw2]
  · rw [if_neg hpl,
      startReadingStep_dispatch (seekPrepare s p w) pdf cw hpdf hp hcw]
    simp [wordsToUse, seekPrepare, updateStatus, hcw2]

/-- Witness for the amended C5 at the sample idle state, seeking (1, 1). -/
theorem seek_valid_coords_results_playing_witness :
    sampleIdleState.currentPDF = some samplePDF ∧
    1 < samplePDF.pages.length ∧
    wordLookup (sampleIdleState.currentWordsData.getD 1 []) 1 = some ⟨"mat", 3, 6⟩ ∧
    ((jumpToWordAndPlay sampleIdleState 1 1).1.currentPageIndex = 1 ∧
     (jumpToWordAndPlay sampleIdleState 1 1).1.currentWordIndex = 1 ∧
     (jumpToWordAndPlay sampleIdleState 1 1).1.isPlaying = true ∧
     (jumpToWordAndPlay sampleIdleState 1 1).1.isPaused = false) :=
  ⟨rfl, by decide, by decide,
    seek_valid_coords_results_playing sampleIdleState samplePDF ⟨"mat", 3, 6⟩ 1 1
      rfl (by decide) (by decide)⟩

/-! ## The uninterrupted reading loop -/

/-- The words remaining to be spoken from cursor `(p, w)` on: the rest of
page `p`'s effective list, then all later pages. -/
def wordsFrom (wd : List (List WordData)) (p w : Nat) : List String :=
  ((wd.getD p []).drop w).map WordData.word ++
    ((wd.drop (p + 1)).map fun ws => ws.map WordData.word).flatten

lemma speaks_append (a b : List Event) : speaks (a ++ b) = speaks a ++ speaks b := by
  simp [speaks]

@[simp] lemma speaks_nil : speaks [] = [] := rfl

@[simp] lemma speaks_cons_speak (w : String) (r : ℚ) (es : List Event) :
    speaks (Event.speak w r :: es) = w :: speaks es := rfl

@[simp] lemma speaks_cons_status (m : String) (es : List Event) :
    speaks (Event.status m :: es) = speaks es := rfl

/-- The state right after `startReading` has dispatched the utterance for
`cw` and its `onstart` handler has run. -/
def dispatchedState (s : AppState) (cw : WordData) : AppState :=
  { highlightCurrentWord s with
      currentUtterance := some
        { text := cw.word, rate := min s.speechRate 10, pitch := 1, volume := 1 },
      ttsSpeaking := true,
      status := readingMsg s.currentPageIndex cw.word s.speechRate s.skipHeaderFooter }

/-- The state after the dispatched utterance's `ended` handler has marked
the word as spoken and advanced the word index. -/
def advancedState (s : AppState) (cw : WordData) : AppState :=
  { markWordAsSpoken (dispatchedState s cw) with
      currentWordIndex := (markWordAsSpoken (dispatchedState s cw)).currentWordIndex + 1 }

lemma readRun_end_eq (s : AppState)
    (h : s.currentPDF.isNone = true ∨ pageCount s ≤ s.currentPageIndex) :
    readRun s =
      ({ s with ttsSpeaking := false, ttsPaused := false, isPlaying := false,
                isPaused := false,
                highlight := { currentWord := [], spokenWord := [], clickedStart := [] },
                status := "Finished reading the document." },
       [Event.status "Reading stopped", Event.status "Finished reading the document."]) := by
  conv_lhs => rw [readRun]
  rw [dif_pos h]
  rfl

lemma readRun_roll_eq (s : AppState)
    (h : ¬ (s.currentPDF.isNone = true ∨ pageCount s ≤ s.currentPageIndex))
    (h2 : (wordsToUse s s.currentPageIndex).length ≤ s.currentWordIndex) :
    readRun s =
      readRun { s with currentPageIndex := s.currentPageIndex + 1, currentWordIndex := 0 } := by
  conv_lhs => rw [readRun]
  rw [dif_neg h, dif_pos h2]

lemma readRun_speak_eq (s : AppState) (cw : WordData)
    (h : ¬ (s.currentPDF.isNone = true ∨ pageCount s ≤ s.currentPageIndex))
    (h2 : ¬ (wordsToUse s s.currentPageIndex).length ≤ s.currentWordIndex)
    (hlook : wordLookup (wordsToUse s s.currentPageIndex) s.currentWordIndex = some cw)
    (hplay : s.isPlaying = true) (hpause : s.isPaused = false) :
    readRun s =
      ((readRun (advancedState s cw)).1,
       Event.speak cw.word (min s.speechRate 10) ::
         Event.status (readingMsg s.currentPageIndex cw.word s.speechRate s.skipHeaderFooter) ::
         (readRun (advancedState s cw)).2) := by
  conv_lhs => rw [readRun]
  rw [dif_neg h, dif_neg h2, hlook]
  split
  · rename_i heq
    exact Option.noConfusion heq
  · rename_i cw2 heq
    cases Option.some.inj heq
    have hc : (s.isPlaying && !s.isPaused) = true := by rw [hplay, hpause]; rfl
    simp only [updateStatus, highlightCurrentWord_isPlaying, highlightCurrentWord_isPaused]
    rw [if_pos hc]
    rfl

lemma wordsFrom_of_le (wd : List (List WordData)) (p w : Nat)
    (h : wd.length ≤ p) : wordsFrom wd p w = [] := by
  have h1 : wd.drop (p + 1) = [] := List.drop_eq_nil_of_le (by omega)
  rw [wordsFrom, List.getD_eq_default _ _ (by omega), h1]
  simp

lemma wordsFrom_page_step (wd : List (List WordData)) (p w : Nat)
    (h : (wd.getD p []).length ≤ w) : wordsFrom wd p w = wordsFrom wd (p + 1) 0 := by
  have h1 : (wd.getD p []).drop w = [] := List.drop_eq_nil_of_le h
  rw [wordsFrom, wordsFrom, h1]
  simp only [List.map_nil, List.nil_append, List.drop_zero]
  by_cases hcase : p + 1 < wd.length
  · have hdrop : wd.drop (p + 1) = wd[p + 1] :: wd.drop (p + 1 + 1) :=
      List.drop_eq_getElem_cons hcase
    rw [hdrop, List.getD_eq_getElem _ _ hcase]
    rfl
  · have h2 : wd.drop (p + 1) = [] := List.drop_eq_nil_of_le (by omega)
    have h3 : wd.drop (p + 1 + 1) = [] := List.drop_eq_nil_of_le (by omega)
    rw [h2, h3, List.getD_eq_default _ _ (by omega)]
    rfl

lemma wordsFrom_word_step (wd : List (List WordData)) (p w : Nat) (cw : WordData)
    (hcw : (wd.getD p [])[w]? = some cw) :
    wordsFrom wd p w = cw.word :: wordsFrom wd p (w + 1) := by
  have hlt : w < (wd.getD p []).length := by
    by_contra hge
    rw [List.getElem?_eq_none (by omega)] at hcw
    cases hcw
  have hget : (wd.getD p [])[w] = cw := by
    have := List.getElem?_eq_getElem hlt
    rw [this] at hcw
    exact Option.some.inj hcw
  rw [wordsFrom, wordsFrom, List.drop_eq_getElem_cons hlt, hget]
  simp

lemma wordsFrom_zero (wd : List (List WordData)) :
    wordsFrom wd 0 0 = (wd.map fun ws => ws.map WordData.word).flatten := by
  cases wd with
  | nil => simp [wordsFrom]
  | cons ws rest => simp [wordsFrom]

lemma readRun_speaks :
    ∀ s : AppState, ∀ pdf : PDFData, s.currentPDF = some pdf →
      s.currentWordsData.length = pdf.pages.length →
      s.isPlaying = true → s.isPaused = false →
      speaks (readRun s).2 =
        wordsFrom s.currentWordsData s.currentPageIndex s.currentWordIndex := by
  intro s
  induction s using readRun.induct with
  | case1 t h =>
    intro pdf hpdf hlen hplay hpause
    rw [readRun_end_eq t h]
    rw [wordsFrom_of_le]
    · rfl
    · rcases h with h | h
      · rw [hpdf] at h
        simp at h
      · rw [pageCount_eq t pdf hpdf] at h
        omega
  | case2 t h h2 ih =>
    intro pdf hpdf hlen hplay hpause
    rw [readRun_roll_eq t h h2]
    rw [ih pdf hpdf hlen hplay hpause]
    exact (wordsFrom_page_step t.currentWordsData t.currentPageIndex t.currentWordIndex h2).symm
  | case3 t h h2 hlook ih =>
    intro pdf hpdf hlen hplay hpause
    exfalso
    rw [wordLookup, List.getElem?_eq_getElem (by omega)] at hlook
    exact Option.noConfusion hlook
  | case4 t h h2 cw hlook s4 u s3 r s2 hinner s1 s0 ih =>
    intro pdf hpdf hlen hplay hpause
    rw [readRun_speak_eq t cw h h2 hlook hplay hpause]
    rw [wordsFrom_word_step t.currentWordsData t.currentPageIndex t.currentWordIndex cw hlook]
    simp only [speaks_cons_speak, speaks_cons_status]
    exact congrArg (List.cons cw.word) (ih pdf hpdf hlen hplay hpause)
  | case5 t h h2 cw hlook s4 u s3 r s2 hinner =>
    intro pdf hpdf hlen hplay hpause
    exfalso
    have hp1 : s2.isPlaying = true := hplay
    have hp2 : s2.isPaused = false := hpause
    rw [hp1, hp2] at hinner
    simp at hinner

lemma readRun_trace_end :
    ∀ s : AppState, s.isPlaying = true → s.isPaused = false →
      ∃ pre, (readRun s).2 = pre ++ [Event.status "Finished reading the document."] := by
  intro s
  induction s using readRun.induct with
  | case1 t h =>
    intro hplay hpause
    rw [readRun_end_eq t h]
    exact ⟨[Event.status "Reading stopped"], rfl⟩
  | case2 t h h2 ih =>
    intro hplay hpause
    rw [readRun_roll_eq t h h2]
    exact ih hplay hpause
  | case3 t h h2 hlook ih =>
    intro hplay hpause
    exfalso
    rw [wordLookup, List.getElem?_eq_getElem (by omega)] at hlook
    exact Option.noConfusion hlook
  | case4 t h h2 cw hlook s4 u s3 r s2 hinner s1 s0 ih =>
    intro hplay hpause
    rw [readRun_speak_eq t cw h h2 hlook hplay hpause]
    obtain ⟨pre, hpre⟩ := ih hplay hpause
    refine ⟨Event.speak cw.word (min t.speechRate 10) ::
      Event.status (readingMsg t.currentPageIndex cw.word t.speechRate t.skipHeaderFooter) ::
      pre, ?_⟩
    rw [show (readRun (advancedState t cw)).2 =
      pre ++ [Event.status "Finished reading the document."] from hpre]
    rfl
  | case5 t h h2 cw hlook s4 u s3 r s2 hinner =>
    intro hplay hpause
    exfalso
    have hp1 : s2.isPlaying = true := hplay
    have hp2 : s2.isPaused = false := hpause
    rw [hp1, hp2] at hinner
    simp at hinner

lemma readRun_final_cursor :
    ∀ s : AppState, ∀ pdf : PDFData, s.currentPDF = some pdf →
      s.isPlaying = true → s.isPaused = false →
      s.currentPageIndex < pdf.pages.length →
      (readRun s).1.currentPageIndex = pdf.pages.length ∧
        (readRun s).1.currentWordIndex = 0 := by
  intro s
  induction s using readRun.induct with
  | case1 t h =>
    intro pdf hpdf hplay hpause hp
    exfalso
    rcases h with h | h
    · rw [hpdf] at h
      simp at h
    · rw [pageCount_eq t pdf hpdf] at h
      omega
  | case2 t h h2 ih =>
    intro pdf hpdf hplay hpause hp
    rw [readRun_roll_eq t h h2]
    by_cases hcase : t.currentPageIndex + 1 < pdf.pages.length
    · exact ih pdf hpdf hplay hpause hcase
    · have hend : pdf.pages.length = t.currentPageIndex + 1 := by omega
      have hguard : (({ t with currentPageIndex := t.currentPageIndex + 1, currentWordIndex := 0 } : AppState).currentPDF.isNone = true ∨ pageCount { t with currentPageIndex := t.currentPageIndex + 1, currentWordIndex := 0 } ≤ ({ t with currentPageIndex := t.currentPageIndex + 1, currentWordIndex := 0 } : AppState).currentPageIndex) := by
        right
        show pageCount t ≤ t.currentPageIndex + 1
        rw [pageCount_eq t pdf hpdf]
        omega
      rw [readRun_end_eq _ hguard]
      exact ⟨by rw [hend], rfl⟩
  | case3 t h h2 hlook ih =>
    intro pdf hpdf hplay hpause hp
    exfalso
    rw [wordLookup, List.getElem?_eq_getElem (by omega)] at hlook
    exact Option.noConfusion hlook
  | case4 t h h2 cw hlook s4 u s3 r s2 hinner s1 s0 ih =>
    intro pdf hpdf hplay hpause hp
    rw [readRun_speak_eq t cw h h2 hlook hplay hpause]
    exact ih pdf hpdf hplay hpause hp
  | case5 t h h2 cw hlook s4 u s3 r s2 hinner =>
    intro pdf hpdf hplay hpause hp
    exfalso
    have hp1 : s2.isPlaying = true := hplay
    have hp2 : s2.isPaused = false := hpause
    rw [hp1, hp2] at hinner
    simp at hinner

/-- Claim C1: starting from cursor (0,0) in a loaded document with playback
active and nothing interrupting, the `startReading` loop — re-entered from
each utterance's `ended` signal — speaks exactly the concatenation of every
page's effective word list in page-then-word order (pages with zero
effective words contribute nothing), and the last status reported is
"Finished reading the document.". -/
theorem startReading_visits_every_word (s : AppState) (pdf : PDFData)
    (hpdf : s.currentPDF = some pdf)
    (hlen : s.currentWordsData.length = pdf.pages.length)
    (hplay : s.isPlaying = true) (hpause : s.isPaused = false)
    (hp0 : s.currentPageIndex = 0) (hw0 : s.currentWordIndex = 0) :
    speaks (readRun s).2 =
      (s.currentWordsData.map fun ws => ws.map WordData.word).flatten ∧
    (readRun s).2.getLast? = some (Event.status "Finished reading the document.") := by
  constructor
  · rw [readRun_speaks s pdf hpdf hlen hplay hpause, hp0, hw0, wordsFrom_zero]
  · obtain ⟨pre, hpre⟩ := readRun_trace_end s hplay hpause
    rw [hpre]
    exact List.getLast?_concat pre

/-- Witness for C1: the spec's two-page scenario; the run from (0,0) speaks
exactly the five words in order and ends on the finished status. -/
theorem startReading_visits_every_word_witness :
    (sampleState.currentPDF = some samplePDF ∧
     sampleState.currentWordsData.length = samplePDF.pages.length ∧
     sampleState.isPlaying = true ∧ sampleState.isPaused = false ∧
     sampleState.currentPageIndex = 0 ∧ sampleState.currentWordIndex = 0) ∧
    (speaks (readRun sampleState).2 =
      (sampleState.currentWordsData.map fun ws => ws.map WordData.word).flatten ∧
     (readRun sampleState).2.getLast? =
       some (Event.status "Finished reading the document.")) :=
  ⟨⟨rfl, by decide, rfl, rfl, rfl, rfl⟩,
    startReading_visits_every_word sampleState samplePDF rfl (by decide) rfl rfl rfl rfl⟩

/-- Claim C4: Stop leaves the cursor unchanged; a subsequent Play continues
exactly where playback left off, dispatching the word at the preserved
cursor; and the run to end-of-document leaves the cursor at the finished
sentinel `(page_count, 0)` — the only cursor resets besides Seek. -/
theorem stop_preserves_cursor_resume_continues (s : AppState) (pdf : PDFData)
    (cw : WordData) (hpdf : s.currentPDF = some pdf)
    (hplay : s.isPlaying = true) (hpause : s.isPaused = false)
    (hp : s.currentPageIndex < pdf.pages.length)
    (hcw : wordLookup (wordsToUse s s.currentPageIndex) s.currentWordIndex = some cw) :
    ((handleStop s).1.currentPageIndex = s.currentPageIndex ∧
     (handleStop s).1.currentWordIndex = s.currentWordIndex) ∧
    (speaks (handlePlay (handleStop s).1).2 = [cw.word] ∧
     (handlePlay (handleStop s).1).1.currentPageIndex = s.currentPageIndex ∧
     (handlePlay (handleStop s).1).1.currentWordIndex = s.currentWordIndex) ∧
    ((readRun s).1.currentPageIndex = pdf.pages.length ∧
     (readRun s).1.currentWordIndex = 0) := by
  refine ⟨⟨rfl, rfl⟩, ?_, readRun_final_cursor s pdf hpdf hplay hpause hp⟩
  unfold handlePlay
  simp only [hpdf, handleStop_fst, handleStop_snd]
  rw [startReadingStep_dispatch { s with currentPDF := some pdf, ttsSpeaking := false, ttsPaused := false, isPlaying := true, isPaused := false, highlight := { currentWord := [], spokenWord := [], clickedStart := [] }, status := "Reading stopped" } pdf cw rfl hp hcw]
  simp [speaks]

/-- Witness for C4 at the sample state: stopping at cursor (0,0) keeps the
cursor, resuming speaks "The" again at (0,0), and the full run finishes at
the sentinel (2, 0). -/
theorem stop_preserves_cursor_resume_continues_witness :
    (sampleState.currentPDF = some samplePDF ∧ sampleState.isPlaying = true ∧
     sampleState.isPaused = false ∧
     sampleState.currentPageIndex < samplePDF.pages.length ∧
     wordLookup (wordsToUse sampleState sampleState.currentPageIndex)
       sampleState.currentWordIndex = some ⟨"The", 0, 3⟩) ∧
    (((handleStop sampleState).1.currentPageIndex = sampleState.currentPageIndex ∧
      (handleStop sampleState).1.currentWordIndex = sampleState.currentWordIndex) ∧
     (speaks (handlePlay (handleStop sampleState).1).2 = [(⟨"The", 0, 3⟩ : WordData).word] ∧
      (handlePlay (handleStop sampleState).1).1.currentPageIndex =
        sampleState.currentPageIndex ∧
      (handlePlay (handleStop sampleState).1).1.currentWordIndex =
        sampleState.currentWordIndex) ∧
     ((readRun sampleState).1.currentPageIndex = samplePDF.pages.length ∧
      (readRun sampleState).1.currentWordIndex = 0)) :=
  ⟨⟨rfl, rfl, rfl, by decide, by decide⟩,
    stop_preserves_cursor_resume_continues sampleState samplePDF ⟨"The", 0, 3⟩
      rfl rfl rfl (by decide) (by decide)⟩

end PDFReader
